import Mathlib

/-
Verification of the target-scheduling core of panoptes/scheduler.py.

Shallow embedding conventions:
* Python floats are modelled as rationals.
* Python ints are modelled as integers.
* Fallible code returns Except PyErr; each PyErr constructor records the
  Python exception raised at the corresponding source location.
* External services (astropy SkyCoord parsing, pyephem alt/az computation,
  the observatory horizon test) are modelled as abstract data: parse results
  appear as Option fields of raw records, and the ephemeris and horizon
  functions are fields of the Observatory structure.
-/

namespace Panoptes

/-- Python exceptions that the scheduler module can raise, tagged by the
source location that raises them. -/
inductive PyErr where
  /-- AssertionError from the name asserts in Target init. -/
  | assertionError
  /-- KeyError from reading the visit key in Target init. -/
  | keyError
  /-- AttributeError from assigning equinox on a None position in Target init. -/
  | attributeError
  /-- AttributeError from getattr on panoptes.scheduler with an unknown
  merit-function name in get_target. -/
  | registryError
  /-- UnboundLocalError from the debug log in get_target reading merit_value
  when the weights dict is empty. -/
  | unboundLocal
  /-- TypeError from sorted comparing two Target objects when merit scores tie. -/
  | typeErrorCmp
  deriving DecidableEq

/-- A parsed sky position (the part of an astropy SkyCoord the scheduler uses).
Coordinates are abstract rationals; equinox is kept as a string, obstime as a
number, exactly the fields Target init writes. -/
structure Position where
  ra : ℚ
  dec : ℚ
  equinox : String
  obstime : ℚ
  deriving DecidableEq

/-- The Observation object: fields as set by Observation init. -/
structure Observation where
  master_exptime : ℚ
  master_nexp : ℤ
  master_filter : Option ℤ
  analyze : Bool
  slave_exptime : ℚ
  slave_nexp : ℤ
  slave_filter : Option ℤ
  deriving DecidableEq

/-- A raw observation record as read from the catalog. Each field holds the
result of the corresponding parse in Observation init when that parse
succeeds (key present and conversion succeeded), and none when the
try-block raised and the except-default applies. analyzeTruthy models the
membership test of the master_filter value in the truthy-string list; it is
false when the key is absent (the except branch). -/
structure RawObs where
  master_exptime : Option ℚ
  master_nexp : Option ℤ
  master_filter : Option ℤ
  analyzeTruthy : Bool
  slave_exptime : Option ℚ
  slave_nexp : Option ℤ
  slave_filter : Option ℤ

/-- Observation init: every field falls back to its default on parse
failure; construction never fails. -/
def mkObservation (r : RawObs) : Observation where
  master_exptime := r.master_exptime.getD 120
  master_nexp := r.master_nexp.getD 1
  master_filter := r.master_filter
  analyze := r.analyzeTruthy
  slave_exptime := r.slave_exptime.getD 120
  slave_nexp := r.slave_nexp.getD 1
  slave_filter := r.slave_filter

/-- The Target object: fields as set by Target init. proper_motion is either
the pair of raw strings from a successful split, or the numeric default pair. -/
structure Target where
  name : String
  priority : ℚ
  position : Option Position
  proper_motion : (String × String) ⊕ (ℚ × ℚ)
  visit : List Observation
  deriving DecidableEq

/-- The name entry of a raw target record: absent, present with a non-string
value, or a string. -/
inductive NameField where
  | absent
  | nonString
  | str (s : String)
  deriving DecidableEq

/-- A raw target record. Option fields hold the result of the corresponding
parse in Target init when it succeeds: priority is the float conversion,
position is the SkyCoord built from the position and frame entries (none
when SkyCoord raises or a key is missing), epoch is the float conversion,
proper_motion is the two-token split of the raw string, visit is the list
of raw observation records (none when the key is absent). -/
structure RawTarget where
  name : NameField
  priority : Option ℚ
  position : Option Position
  equinox : Option String
  epoch : Option ℚ
  proper_motion : Option (String × String)
  visit : Option (List RawObs)

/-- Target init. The name asserts raise AssertionError; a position that
failed to parse is set to None and then the equinox block dereferences it
in both the try body and the except handler, raising AttributeError; a
missing visit key raises KeyError; every other field defaults. -/
def mkTarget (r : RawTarget) : Except PyErr Target :=
  match r.name with
  | .absent => .error .assertionError
  | .nonString => .error .assertionError
  | .str nm =>
    match r.position with
    | none => .error .attributeError
    | some p =>
      match r.visit with
      | none => .error .keyError
      | some l =>
        .ok { name := nm
              priority := r.priority.getD 1
              position := some { p with equinox := r.equinox.getD "J2000"
                                        obstime := r.epoch.getD 2000 }
              proper_motion := match r.proper_motion with
                | some pm => .inl pm
                | none => .inr (0, 0)
              visit := l.map mkObservation }

/-- Observation.estimate_duration: max of the per-channel totals, with the
overhead added to each exposure time before multiplying by the count. -/
def Observation.estimate_duration (o : Observation) (overhead : ℚ) : ℚ :=
  max ((o.master_exptime + overhead) * (o.master_nexp : ℚ))
      ((o.slave_exptime + overhead) * (o.slave_nexp : ℚ))

/-- Target.estimate_visit_duration: folds over the visit, adding each
observation duration estimated with the DEFAULT zero overhead, plus the
per-observation overhead. -/
def Target.estimate_visit_duration (t : Target) (overhead : ℚ) : ℚ :=
  t.visit.foldl (fun d obs => d + (obs.estimate_duration 0 + overhead)) 0

/-- The observatory as the merit functions see it: the horizon test on an
alt/az pair, and the external ephemeris giving the alt/az of a position at
the instant start_time + dt seconds. -/
structure Observatory where
  horizon : ℚ → ℚ → Bool
  ephem : Position → ℕ → ℚ × ℚ

/-- Python int() conversion: truncation toward zero. -/
def pyInt (q : ℚ) : ℤ :=
  if 0 ≤ q then q.floor else q.ceil

/-- Number of samples of np.arange(0, int(d) + 30, 30): the sampled instants
are 30 * i for i below this count. -/
def sampleCount (d : ℚ) : ℕ :=
  (pyInt d + 30 + 29).toNat / 30

/-- Python truthiness of a merit value: None and False are modelled as none,
a number q as some q; only a nonzero number is truthy. -/
def truthy : Option ℚ → Bool
  | none => false
  | some q => decide (q ≠ 0)

/-- The observable merit function: requires a parsed position (else the
attribute accesses on None raise AttributeError), then walks the 30-second
sample grid over the estimated visit duration; returns False (none) if the
horizon test fails at any sample and the number 1 otherwise. -/
def observable (t : Target) (o : Observatory) : Except PyErr (Option ℚ) :=
  match t.position with
  | none => .error .attributeError
  | some p =>
    if (List.range (sampleCount (t.estimate_visit_duration 0))).all
        (fun i => o.horizon (o.ephem p (30 * i)).1 (o.ephem p (30 * i)).2) then
      .ok (some 1)
    else
      .ok none

/-- The merit-function lookup: maps a weight key to the merit function of
that name, none when the module defines no such function. -/
abbrev Registry := String → Option (Target → Observatory → Except PyErr (Option ℚ))

/-- The merit functions defined at module level in panoptes.scheduler:
exactly one, named observable. Models getattr(panoptes.scheduler, name)
for merit lookup; an unknown name raises, recorded as registryError. -/
def meritRegistry : Registry :=
  fun s => if s = "observable" then some observable else none

/-- The inner loop of get_target over one target: iterate the weight terms in
order, look each name up, call the merit function, accumulate
weight * value while truthy and not vetoed, otherwise set vetoed. -/
def evalTerms (reg : Registry) (o : Observatory) (t : Target) :
    List (String × ℚ) → Bool → ℚ → Except PyErr (Bool × ℚ)
  | [], vetoed, merit => .ok (vetoed, merit)
  | (nm, w) :: rest, vetoed, merit =>
    match reg nm with
    | none => .error .registryError
    | some f =>
      match f t o with
      | .error e => .error e
      | .ok mv =>
        if truthy mv && !vetoed then
          evalTerms reg o t rest vetoed (merit + w * mv.getD 0)
        else
          evalTerms reg o t rest true merit

/-- The outer loop of get_target: evaluate each target, append the pair
(priority * merit, target) when not vetoed, then run the debug log whose
format call reads merit_value; with an empty weights dict that variable was
never assigned, raising UnboundLocalError. -/
def evalAll (reg : Registry) (o : Observatory) (ws : List (String × ℚ)) :
    List Target → Except PyErr (List (ℚ × Target))
  | [] => .ok []
  | t :: rest =>
    match evalTerms reg o t ws false 0 with
    | .error e => .error e
    | .ok r =>
      if ws.isEmpty then .error .unboundLocal
      else
        match evalAll reg o ws rest with
        | .error e => .error e
        | .ok ms => .ok (if r.1 then ms else (t.priority * r.2, t) :: ms)

/-- Fold computing the entry of maximal score, as sorted(merits) followed by
indexing the last element does when all scores are distinct. -/
def bestOf (m : ℚ × Target) : List (ℚ × Target) → ℚ × Target
  | [] => m
  | p :: rest => bestOf (if m.1 < p.1 then p else m) rest

/-- sorted(merits) and taking the last entry: None on an empty list; on a
nonempty list, Python tuple comparison falls through to comparing the two
Target objects whenever two scores are equal, raising TypeError, so the
result is only defined when the scores are pairwise distinct, and is then
the entry of maximal score. -/
def selectTarget (ms : List (ℚ × Target)) : Except PyErr (Option Target) :=
  match ms with
  | [] => .ok none
  | m :: rest =>
    if ((m :: rest).map Prod.fst).Nodup then .ok (some (bestOf m rest).2)
    else .error .typeErrorCmp

/-- Scheduler.get_target on an already loaded candidate list: score every
candidate, then select the maximum. -/
def getTarget (reg : Registry) (ws : List (String × ℚ)) (ts : List Target)
    (o : Observatory) : Except PyErr (Option Target) :=
  match evalAll reg o ws ts with
  | .error e => .error e
  | .ok ms => selectTarget ms

/-- The default value of the weights argument of get_target in the source:
the single key observable with weight 1.0. -/
def defaultWeights : List (String × ℚ) := [("observable", 1)]

instance {ε α : Type} [DecidableEq ε] [DecidableEq α] : DecidableEq (Except ε α) :=
  fun a b =>
    match a, b with
    | .error e, .error f =>
      if h : e = f then isTrue (congrArg Except.error h)
      else isFalse (fun c => h (Except.error.inj c))
    | .ok x, .ok y =>
      if h : x = y then isTrue (congrArg Except.ok h)
      else isFalse (fun c => h (Except.ok.inj c))
    | .error _, .ok _ => isFalse (fun c => Except.noConfusion c)
    | .ok _, .error _ => isFalse (fun c => Except.noConfusion c)

/-- A raw observation record with every key absent. -/
def rawObsD : RawObs :=
  { master_exptime := none, master_nexp := none, master_filter := none
    analyzeTruthy := false, slave_exptime := none, slave_nexp := none
    slave_filter := none }

/-- The all-default observation: 120 s exposures, one exposure per channel. -/
def obsD : Observation := mkObservation rawObsD

/-- A concrete parsed position. -/
def posA : Position := { ra := 10, dec := 20, equinox := "J2000", obstime := 2000 }

/-- A concrete target with a parsed position and a one-observation visit. -/
def tgtA : Target :=
  { name := "A", priority := 3, position := some posA
    proper_motion := .inr (0, 0), visit := [obsD] }

/-- An observatory whose horizon test accepts every direction. -/
def obsyAll : Observatory :=
  { horizon := fun _ _ => true, ephem := fun _ _ => (1, 2) }

/-- An observatory whose horizon test rejects every direction. -/
def obsyNone : Observatory :=
  { horizon := fun _ _ => false, ephem := fun _ _ => (1, 2) }

/-- The merit entry the outer loop of get_target produces for one target:
present exactly when the term loop succeeds unvetoed, carrying the score
priority times accumulated merit. -/
def meritEntry (reg : Registry) (o : Observatory) (ws : List (String × ℚ))
    (t : Target) : Option (ℚ × Target) :=
  match evalTerms reg o t ws false 0 with
  | .ok (false, m) => some (t.priority * m, t)
  | _ => none

/-- An observation with valid fields: nonnegative exposure times and counts. -/
def obsCXa : Observation :=
  { master_exptime := 10, master_nexp := 1, master_filter := none, analyze := false
    slave_exptime := 1, slave_nexp := 5, slave_filter := none }

/-- The same observation with a larger primary exposure count. -/
def obsCXb : Observation := { obsCXa with master_nexp := 2 }

/-- The raw record of a target named A with a one-observation visit and no
parsable position: every other key absent. -/
def rawNoPos : RawTarget :=
  { name := .str "A", priority := none, position := none, equinox := none
    epoch := none, proper_motion := none, visit := some [rawObsD] }

/-- Once the vetoed flag is set, the remaining terms are still evaluated but
the flag and the accumulated merit no longer change. -/
theorem evalTerms_vetoed_fixed (reg : Registry) (o : Observatory) (t : Target) :
    ∀ (ws : List (String × ℚ)) (m : ℚ) (r : Bool × ℚ),
      evalTerms reg o t ws true m = .ok r → r = (true, m) := by
  intro ws
  induction ws with
  | nil =>
    intro m r h
    simpa [evalTerms] using h.symm
  | cons kw rest ih =>
    intro m r h
    obtain ⟨k, w⟩ := kw
    rw [evalTerms] at h
    split at h
    · exact absurd h (by simp)
    · split at h
      · exact absurd h (by simp)
      · simp only [Bool.not_true, Bool.and_false, if_neg] at h
        exact ih m r h

/-- If some term of the weights list names a registered function whose value
on the target is falsy, then a successful evaluation of the term loop ends
with the vetoed flag set. -/
theorem evalTerms_falsy_veto (reg : Registry) (o : Observatory) (t : Target) :
    ∀ (ws : List (String × ℚ)) (v : Bool) (acc : ℚ) (k : String) (w : ℚ)
      (f : Target → Observatory → Except PyErr (Option ℚ)) (mv : Option ℚ),
      (k, w) ∈ ws → reg k = some f → f t o = .ok mv → truthy mv = false →
      ∀ r, evalTerms reg o t ws v acc = .ok r → r.1 = true := by
  intro ws
  induction ws with
  | nil =>
    intro v acc k w f mv hmem
    simp at hmem
  | cons kw rest ih =>
    intro v acc k w f mv hmem hreg hf htr r hev
    obtain ⟨k0, w0⟩ := kw
    rw [evalTerms] at hev
    rcases List.mem_cons.mp hmem with heq | hmem'
    · obtain ⟨hk, hw⟩ := Prod.mk.injEq .. ▸ heq
      subst hk
      rw [hreg] at hev
      simp only at hev
      rw [hf] at hev
      simp only at hev
      rw [htr] at hev
      simp only [Bool.false_and, if_neg] at hev
      have := evalTerms_vetoed_fixed reg o t rest acc r hev
      rw [this]
    · split at hev
      · exact absurd hev (by simp)
      · split at hev
        · exact absurd hev (by simp)
        · split at hev
          · exact ih _ _ k w f mv hmem' hreg hf htr r hev
          · have := evalTerms_vetoed_fixed reg o t rest acc r hev
            rw [this]

/-- A successful outer loop evaluates the term loop of every candidate and
collects exactly the merit entries of the unvetoed ones, in order. -/
theorem evalAll_ok (reg : Registry) (o : Observatory) (ws : List (String × ℚ)) :
    ∀ (ts : List Target) (ms : List (ℚ × Target)), evalAll reg o ws ts = .ok ms →
      ms = ts.filterMap (meritEntry reg o ws) ∧
      ∀ t ∈ ts, ∃ r, evalTerms reg o t ws false 0 = .ok r := by
  intro ts
  induction ts with
  | nil =>
    intro ms h
    rw [evalAll] at h
    refine ⟨?_, by simp⟩
    simpa using h.symm
  | cons t rest ih =>
    intro ms h
    rw [evalAll] at h
    split at h
    · exact absurd h (by simp)
    · rename_i r heq
      split at h
      · exact absurd h (by simp)
      · split at h
        · exact absurd h (by simp)
        · rename_i ms0 heq0
          obtain ⟨hms0, hall⟩ := ih ms0 heq0
          have hms : ms = if r.1 then ms0 else (t.priority * r.2, t) :: ms0 := by
            simpa using h.symm
          constructor
          · rw [List.filterMap_cons]
            obtain ⟨v, m⟩ := r
            cases v with
            | true => simp only [meritEntry, heq, hms, if_pos, hms0]
            | false => simp only [meritEntry, heq, hms, if_neg, Bool.false_eq_true,
                not_false_iff, hms0]
          · intro u hu
            rcases List.mem_cons.mp hu with hu | hu
            · exact ⟨r, hu ▸ heq⟩
            · exact hall u hu

/-- If every target in the list is vetoed, the outer loop succeeds with an
empty merit list. -/
theorem evalAll_all_vetoed (reg : Registry) (o : Observatory) (ws : List (String × ℚ)) :
    ∀ ts : List Target,
      (∀ t ∈ ts, ∃ m, evalTerms reg o t ws false 0 = .ok (true, m)) →
      evalAll reg o ws ts = .ok [] := by
  intro ts
  induction ts with
  | nil => intro _; rfl
  | cons t rest ih =>
    intro hall
    obtain ⟨m, hm⟩ := hall t (by simp)
    have hws : ws.isEmpty = false := by
      cases hcase : ws with
      | nil => subst hcase; simp [evalTerms] at hm
      | cons a l => simp
    have hrest := ih (fun u hu => hall u (by simp [hu]))
    rw [evalAll, hm]
    simp [hws, hrest]

/-- The max-score fold returns an element of its input. -/
theorem bestOf_mem : ∀ (rest : List (ℚ × Target)) (m : ℚ × Target),
    bestOf m rest ∈ m :: rest := by
  intro rest
  induction rest with
  | nil => intro m; simp [bestOf]
  | cons p rest ih =>
    intro m
    by_cases hc : m.1 < p.1
    · rw [bestOf, if_pos hc]
      rcases List.mem_cons.mp (ih p) with h | h
      · simp [h]
      · simp [h]
    · rw [bestOf, if_neg hc]
      rcases List.mem_cons.mp (ih m) with h | h
      · simp [h]
      · simp [h]

/-- The max-score fold dominates every element of its input. -/
theorem bestOf_le : ∀ (rest : List (ℚ × Target)) (m q : ℚ × Target),
    q ∈ m :: rest → q.1 ≤ (bestOf m rest).1 := by
  intro rest
  induction rest with
  | nil =>
    intro m q hq
    rcases List.mem_cons.mp hq with h | h
    · rw [h, bestOf]
    · simp at h
  | cons p rest ih =>
    intro m q hq
    by_cases hc : m.1 < p.1
    · rw [bestOf, if_pos hc]
      rcases List.mem_cons.mp hq with h | h
      · rw [h]; exact le_trans (le_of_lt hc) (ih p p (by simp))
      · rcases List.mem_cons.mp h with h | h
        · rw [h]; exact ih p p (by simp)
        · exact ih p q (by simp [h])
    · rw [bestOf, if_neg hc]
      rcases List.mem_cons.mp hq with h | h
      · rw [h]; exact ih m m (by simp)
      · rcases List.mem_cons.mp h with h | h
        · rw [h]; exact le_trans (le_of_not_lt hc) (ih m m (by simp))
        · exact ih m q (by simp [h])

/-- Inversion of the selection step for a returned target: the target comes
from a merit entry of maximal score. -/
theorem selectTarget_ok_some (ms : List (ℚ × Target)) (t : Target) :
    selectTarget ms = .ok (some t) →
    ∃ q, (q, t) ∈ ms ∧ ∀ p ∈ ms, p.1 ≤ q := by
  cases ms with
  | nil => intro h; simp [selectTarget] at h
  | cons m rest =>
    intro h
    rw [selectTarget] at h
    split at h
    · have ht : (bestOf m rest).2 = t := by simpa using h
      refine ⟨(bestOf m rest).1, ?_, ?_⟩
      · have := bestOf_mem rest m
        rwa [show ((bestOf m rest).1, t) = bestOf m rest by rw [← ht]]
      · intro p hp
        exact bestOf_le rest m p hp
    · exact absurd h (by simp)

/-- Inversion of a meritEntry hit. -/
theorem meritEntry_eq_some (reg : Registry) (o : Observatory) (ws : List (String × ℚ))
    (t : Target) (pr : ℚ × Target) :
    meritEntry reg o ws t = some pr →
    ∃ m, evalTerms reg o t ws false 0 = .ok (false, m) ∧ pr = (t.priority * m, t) := by
  unfold meritEntry
  split
  · rename_i m heq
    intro h
    exact ⟨m, heq, (Option.some.inj h).symm⟩
  · intro h
    exact absurd h (by simp)

/-- Every 30-second grid point within the duration is covered by the sample
index range of np.arange(0, int(d) + 30, 30). -/
theorem sampleCount_cover (d : ℚ) (k : ℕ) (h : (30 * k : ℚ) ≤ d) :
    k < sampleCount d := by
  have hd : 0 ≤ d := le_trans (by positivity) h
  have h1 : ((30 * k : ℤ) : ℚ) ≤ d := by exact_mod_cast h
  have h2 : (30 * k : ℤ) ≤ d.floor := Rat.le_floor.mpr h1
  have hF : (0 : ℤ) ≤ d.floor := Rat.le_floor.mpr (by exact_mod_cast hd)
  unfold sampleCount pyInt
  rw [if_pos hd]
  have h3 : (k + 1) * 30 ≤ (d.floor + 30 + 29).toNat := by omega
  have h4 := (Nat.le_div_iff_mul_le (by norm_num : 0 < 30)).mpr h3
  omega

/-- Folding additive accumulation equals the initial value plus the mapped sum. -/
theorem foldl_add_map_sum (f : Observation → ℚ) :
    ∀ (l : List Observation) (a : ℚ),
      l.foldl (fun d ob => d + f ob) a = a + (l.map f).sum := by
  intro l
  induction l with
  | nil => intro a; simp
  | cons ob rest ih =>
    intro a
    simp only [List.foldl_cons, List.map_cons, List.sum_cons, ih]
    ring

/-- C9: Observation.estimate_duration equals the max over the two channels of
(exposure time + overhead) * count, the overhead added to each exposure time
before multiplying by the exposure count, and for a valid record
(nonnegative exposure times and counts) and nonnegative overhead the result
is nonnegative. -/
theorem c9_estimate_duration_formula (ob : Observation) (o : ℚ) :
    ob.estimate_duration o =
      max ((ob.master_exptime + o) * (ob.master_nexp : ℚ))
        ((ob.slave_exptime + o) * (ob.slave_nexp : ℚ)) ∧
    (0 ≤ ob.master_exptime → 0 ≤ ob.slave_exptime → 0 ≤ ob.master_nexp →
      0 ≤ ob.slave_nexp → 0 ≤ o → 0 ≤ ob.estimate_duration o) := by
  refine ⟨rfl, ?_⟩
  intro h1 h2 h3 h4 h5
  have hm : 0 ≤ (ob.master_exptime + o) * (ob.master_nexp : ℚ) :=
    mul_nonneg (by linarith) (by exact_mod_cast h3)
  exact le_trans hm (le_max_left _ _)

unseal Rat.add Rat.mul in
theorem c9_estimate_duration_formula_witness :
    0 ≤ Observation.estimate_duration obsD 0 :=
  (c9_estimate_duration_formula obsD 0).2 (by decide) (by decide) (by decide)
    (by decide) (by decide)

unseal Rat.add Rat.mul Rat.sub in
/-- C10 fails as stated: with the negative overhead -20, increasing the
primary exposure count of a valid record from 1 to 2 strictly decreases the
estimated duration. -/
theorem c10_counterexample :
    obsCXa.master_nexp < obsCXb.master_nexp ∧
    Observation.estimate_duration obsCXb (-20) <
      Observation.estimate_duration obsCXa (-20) := by
  decide

/-- C10 amended: for an Observation built from a valid record (nonnegative
exposure times and counts) and a nonnegative fixed overhead,
estimate_duration is monotone non-decreasing in the exposure counts and
exposure times. -/
theorem c10_amended_monotone (a b : Observation) (o : ℚ)
    (ho : 0 ≤ o) (hme : 0 ≤ a.master_exptime) (hse : 0 ≤ a.slave_exptime)
    (hmn : 0 ≤ a.master_nexp) (hsn : 0 ≤ a.slave_nexp)
    (h1 : a.master_exptime ≤ b.master_exptime) (h2 : a.master_nexp ≤ b.master_nexp)
    (h3 : a.slave_exptime ≤ b.slave_exptime) (h4 : a.slave_nexp ≤ b.slave_nexp) :
    a.estimate_duration o ≤ b.estimate_duration o := by
  unfold Observation.estimate_duration
  have hm : (a.master_exptime + o) * (a.master_nexp : ℚ) ≤
      (b.master_exptime + o) * (b.master_nexp : ℚ) :=
    mul_le_mul (by linarith) (by exact_mod_cast h2) (by exact_mod_cast hmn) (by linarith)
  have hs : (a.slave_exptime + o) * (a.slave_nexp : ℚ) ≤
      (b.slave_exptime + o) * (b.slave_nexp : ℚ) :=
    mul_le_mul (by linarith) (by exact_mod_cast h4) (by exact_mod_cast hsn) (by linarith)
  exact max_le_max hm hs

unseal Rat.add Rat.mul in
theorem c10_amended_monotone_witness :
    Observation.estimate_duration obsCXa 0 ≤ Observation.estimate_duration obsCXb 0 :=
  c10_amended_monotone obsCXa obsCXb 0 le_rfl (by decide) (by decide) (by decide)
    (by decide) (by decide) (by decide) (by decide) (by decide)

unseal Rat.add Rat.mul in
/-- C2 fails as stated: for the one-observation target tgtA and overhead 10,
estimate_visit_duration gives 130 because the observation duration is
estimated with the default zero overhead, not the claimed 140 that
per-exposure overhead charging would give. -/
theorem c2_counterexample :
    ¬ Target.estimate_visit_duration tgtA 10 =
        (tgtA.visit.map (fun ob => ob.estimate_duration 10 + 10)).sum := by
  decide

/-- C2 amended: estimate_visit_duration sums, over the Observations of the
visit, the observation duration estimated with the DEFAULT ZERO overhead
plus one copy of the overhead per Observation; no per-exposure overhead is
applied because estimate_duration is called without an argument. -/
theorem c2_amended_visit_duration (t : Target) (o : ℚ) :
    t.estimate_visit_duration o =
      (t.visit.map (fun ob => ob.estimate_duration 0 + o)).sum := by
  have h := foldl_add_map_sum (fun ob => ob.estimate_duration 0 + o) t.visit 0
  simpa [Target.estimate_visit_duration] using h

/-- C4: contrary to the claim, get_target over a nonempty candidate list with
an empty weights mapping does not complete normally: the per-target debug
log reads the local merit_value, which no loop iteration assigned, raising
UnboundLocalError. -/
theorem c4_empty_weights_raises :
    getTarget meritRegistry [] [tgtA] obsyAll = .error .unboundLocal := by
  decide

/-- C5: contrary to the claim, a raw record whose position cannot be parsed
does not yield a Target with position none: Target init sets position to
None and the following equinox block dereferences it in both the try body
and the except handler, so construction raises AttributeError. -/
theorem c5_unparsed_position_raises :
    mkTarget rawNoPos = .error .attributeError := by
  decide

/-- C3: for a target with a parsed position, the observable merit function
samples the 30-second grid starting at the current instant with every grid
point within the estimated visit duration covered, returns the falsy veto
value (None model of Python False) exactly when the horizon reports some
sampled instant unobservable, and returns exactly the numeric score 1 when
every sampled instant is observable. -/
theorem c3_observable_sampling (t : Target) (o : Observatory) (p : Position)
    (hp : t.position = some p) :
    (0 ≤ t.estimate_visit_duration 0 → 0 < sampleCount (t.estimate_visit_duration 0)) ∧
    (∀ k : ℕ, (30 * k : ℚ) ≤ t.estimate_visit_duration 0 →
      k < sampleCount (t.estimate_visit_duration 0)) ∧
    (observable t o = .ok (some 1) ∨ observable t o = .ok none) ∧
    (observable t o = .ok (some 1) ↔
      ∀ i, i < sampleCount (t.estimate_visit_duration 0) →
        o.horizon (o.ephem p (30 * i)).1 (o.ephem p (30 * i)).2 = true) ∧
    (observable t o = .ok none ↔
      ∃ i, i < sampleCount (t.estimate_visit_duration 0) ∧
        o.horizon (o.ephem p (30 * i)).1 (o.ephem p (30 * i)).2 = false) := by
  have hobs : observable t o =
      if (List.range (sampleCount (t.estimate_visit_duration 0))).all
          (fun i => o.horizon (o.ephem p (30 * i)).1 (o.ephem p (30 * i)).2) then
        .ok (some 1)
      else .ok none := by
    simp only [observable, hp]
  have hall : ((List.range (sampleCount (t.estimate_visit_duration 0))).all
      (fun i => o.horizon (o.ephem p (30 * i)).1 (o.ephem p (30 * i)).2) = true) ↔
      ∀ i, i < sampleCount (t.estimate_visit_duration 0) →
        o.horizon (o.ephem p (30 * i)).1 (o.ephem p (30 * i)).2 = true := by
    simp [List.all_eq_true, List.mem_range]
  refine ⟨?_, ?_, ?_, ?_, ?_⟩
  · intro hd
    exact sampleCount_cover _ 0 (by simpa using hd)
  · intro k hk
    exact sampleCount_cover _ k hk
  · by_cases hb : ((List.range (sampleCount (t.estimate_visit_duration 0))).all
        (fun i => o.horizon (o.ephem p (30 * i)).1 (o.ephem p (30 * i)).2)) = true
    · left; rw [hobs, if_pos hb]
    · right; rw [hobs, if_neg hb]
  · by_cases hb : ((List.range (sampleCount (t.estimate_visit_duration 0))).all
        (fun i => o.horizon (o.ephem p (30 * i)).1 (o.ephem p (30 * i)).2)) = true
    · rw [hobs, if_pos hb]
      exact ⟨fun _ => hall.mp hb, fun _ => rfl⟩
    · rw [hobs, if_neg hb]
      constructor
      · intro h2; exact absurd h2 (by simp)
      · intro h2; exact absurd (hall.mpr h2) hb
  · by_cases hb : ((List.range (sampleCount (t.estimate_visit_duration 0))).all
        (fun i => o.horizon (o.ephem p (30 * i)).1 (o.ephem p (30 * i)).2)) = true
    · rw [hobs, if_pos hb]
      constructor
      · intro h2; exact absurd h2 (by simp)
      · rintro ⟨i, hi, hfalse⟩
        have htrue := hall.mp hb i hi
        rw [htrue] at hfalse
        exact absurd hfalse (by simp)
    · rw [hobs, if_neg hb]
      refine ⟨fun _ => ?_, fun _ => rfl⟩
      by_contra hno
      push_neg at hno
      refine absurd (hall.mpr fun i hi => ?_) hb
      cases hcase : o.horizon (o.ephem p (30 * i)).1 (o.ephem p (30 * i)).2 with
      | true => rfl
      | false => exact absurd hcase (hno i hi)

theorem c3_observable_sampling_witness :
    tgtA.position = some posA ∧
    (observable tgtA obsyAll = .ok (some 1) ∨ observable tgtA obsyAll = .ok none) :=
  ⟨rfl, (c3_observable_sampling tgtA obsyAll posA rfl).2.2.1⟩

/-- C7: get_target returns none, raising no error, both on an empty candidate
list and when the term loop vetoed every candidate. -/
theorem c7_none_on_empty_or_all_vetoed (reg : Registry) (ws : List (String × ℚ))
    (ts : List Target) (o : Observatory) :
    (ts = [] → getTarget reg ws ts o = .ok none) ∧
    ((∀ t ∈ ts, ∃ m, evalTerms reg o t ws false 0 = .ok (true, m)) →
      getTarget reg ws ts o = .ok none) := by
  constructor
  · intro h; subst h; rfl
  · intro hallv
    have h := evalAll_all_vetoed reg o ws ts hallv
    rw [getTarget, h]
    rfl

unseal Rat.add Rat.mul in
theorem c7_none_on_empty_or_all_vetoed_witness :
    getTarget meritRegistry defaultWeights [] obsyAll = .ok none ∧
    getTarget meritRegistry defaultWeights [tgtA] obsyNone = .ok none :=
  ⟨(c7_none_on_empty_or_all_vetoed meritRegistry defaultWeights [] obsyAll).1 rfl,
   (c7_none_on_empty_or_all_vetoed meritRegistry defaultWeights [tgtA] obsyNone).2
     (by
       intro t ht
       rw [List.mem_singleton] at ht
       subst ht
       exact ⟨0, by decide⟩)⟩

/-- C8 fails as stated: the module defines no merit function named
observability (the built-in function is named observable), so get_target
with the claimed weights mapping fails in the registry lookup instead of
returning the single always-observable candidate. -/
theorem c8_counterexample :
    ¬ getTarget meritRegistry [("observability", 1)] [tgtA] obsyAll = .ok (some tgtA) := by
  decide

/-- C8 amended: the default weights argument of get_target is the mapping
with single key observable and weight 1.0, and for a single candidate with
a parsed position that the observatory reports observable at every sample,
get_target with the default weights returns that candidate. -/
theorem c8_amended_default_weights (t : Target) (p : Position) (o : Observatory)
    (hp : t.position = some p)
    (hall : ∀ i : ℕ, o.horizon (o.ephem p (30 * i)).1 (o.ephem p (30 * i)).2 = true) :
    defaultWeights = [("observable", 1)] ∧
    getTarget meritRegistry defaultWeights [t] o = .ok (some t) := by
  refine ⟨rfl, ?_⟩
  have hobs : observable t o = .ok (some 1) := by
    simp only [observable, hp]
    rw [if_pos (List.all_eq_true.mpr (fun i _ => hall i))]
  have hreg : meritRegistry "observable" = some observable := by
    simp [meritRegistry]
  have htr : truthy (some (1 : ℚ)) = true := by decide
  have hev : evalTerms meritRegistry o t defaultWeights false 0 = .ok (false, 0 + 1 * 1) := by
    rw [show defaultWeights = [("observable", (1 : ℚ))] from rfl, evalTerms]
    simp only [hreg, hobs, htr, Bool.not_false, Bool.and_self, if_true, Option.getD_some]
    rw [evalTerms]
  have hA : evalAll meritRegistry o defaultWeights [t] = .ok [(t.priority * (0 + 1 * 1), t)] := by
    rw [evalAll, hev]
    simp [evalAll, defaultWeights]
  rw [getTarget, hA]
  simp [selectTarget, bestOf]

theorem c8_amended_default_weights_witness :
    defaultWeights = [("observable", 1)] ∧
    getTarget meritRegistry defaultWeights [tgtA] obsyAll = .ok (some tgtA) :=
  c8_amended_default_weights tgtA posA obsyAll rfl (fun _ => rfl)

/-- With a weights key outside the registry and every registered function
succeeding on the target, the term loop fails with the registry lookup
error. -/
theorem evalTerms_unknown_key (reg : Registry) (o : Observatory) (t : Target) :
    ∀ (ws : List (String × ℚ)) (v : Bool) (acc : ℚ),
      (∃ kw ∈ ws, reg kw.1 = none) →
      (∀ k f, reg k = some f → ∃ mv, f t o = .ok mv) →
      evalTerms reg o t ws v acc = .error .registryError := by
  intro ws
  induction ws with
  | nil =>
    intro v acc hbad _
    simp at hbad
  | cons kw rest ih =>
    intro v acc hbad hok
    obtain ⟨k0, w0⟩ := kw
    rw [evalTerms]
    cases hreg : reg k0 with
    | none => rfl
    | some f =>
      obtain ⟨mv, hmv⟩ := hok k0 f hreg
      have hbad2 : ∃ kw ∈ rest, reg kw.1 = none := by
        rcases hbad with ⟨kw, hmem, hnone⟩
        rcases List.mem_cons.mp hmem with he | hm
        · rw [he] at hnone
          rw [hnone] at hreg
          exact absurd hreg (by simp)
        · exact ⟨kw, hm, hnone⟩
      simp only [hreg, hmv]
      by_cases hc : (truthy mv && !v) = true
      · rw [if_pos hc]; exact ih _ _ hbad2 hok
      · rw [if_neg hc]; exact ih _ _ hbad2 hok

/-- C6: with a nonempty candidate list, a weights mapping containing a key
that names no merit function in the registry makes get_target fail with the
registry lookup error (the AttributeError from getattr, the RegistryError
kind of the design), surfaced to the caller as the result; the functions
named by the registered keys are assumed to evaluate successfully on the
candidates. -/
theorem c6_unknown_key_fails (reg : Registry) (ws : List (String × ℚ))
    (ts : List Target) (o : Observatory)
    (hts : ts ≠ [])
    (hok : ∀ k f, reg k = some f → ∀ t ∈ ts, ∃ mv, f t o = .ok mv)
    (hbad : ∃ kw ∈ ws, reg kw.1 = none) :
    getTarget reg ws ts o = .error .registryError := by
  cases ts with
  | nil => exact absurd rfl hts
  | cons t rest =>
    have h := evalTerms_unknown_key reg o t ws false 0 hbad
      (fun k f hk => hok k f hk t (by simp))
    rw [getTarget, evalAll, h]

unseal Rat.add Rat.mul in
theorem c6_unknown_key_fails_witness :
    getTarget meritRegistry [("observability", 2)] [tgtA] obsyAll = .error .registryError := by
  apply c6_unknown_key_fails
  · simp
  · intro k f hk t ht
    rw [List.mem_singleton] at ht
    subst ht
    by_cases h : k = "observable"
    · subst h
      rw [show meritRegistry "observable" = some observable from by simp [meritRegistry]] at hk
      have hf : f = observable := (Option.some.inj hk).symm
      subst hf
      exact ⟨some 1, by decide⟩
    · rw [show meritRegistry k = none from by simp [meritRegistry, h]] at hk
      exact absurd hk (by simp)
  · exact ⟨("observability", 2), by simp, by simp [meritRegistry]⟩

/-- C1: when get_target returns a target, that target is one of the
candidates, its term loop ended unvetoed, its score priority times
accumulated merit is maximal among all unvetoed candidates, and a candidate
for which some weighted merit term returned a falsy value is never the
returned one, whatever its other terms scored. -/
theorem c1_get_target_max_unvetoed (reg : Registry) (ws : List (String × ℚ))
    (ts : List Target) (o : Observatory) (t : Target)
    (h : getTarget reg ws ts o = .ok (some t)) :
    t ∈ ts ∧
    (∃ m, evalTerms reg o t ws false 0 = .ok (false, m) ∧
      ∀ u mu, u ∈ ts → evalTerms reg o u ws false 0 = .ok (false, mu) →
        u.priority * mu ≤ t.priority * m) ∧
    (∀ u ∈ ts,
      (∃ kw ∈ ws, ∃ f mv, reg kw.1 = some f ∧ f u o = .ok mv ∧ truthy mv = false) →
      t ≠ u) := by
  rw [getTarget] at h
  cases hA : evalAll reg o ws ts with
  | error e =>
    rw [hA] at h
    exact absurd h (by simp)
  | ok ms =>
    rw [hA] at h
    obtain ⟨hms, hok⟩ := evalAll_ok reg o ws ts ms hA
    obtain ⟨q, hqmem, hqmax⟩ := selectTarget_ok_some ms t h
    subst hms
    rw [List.mem_filterMap] at hqmem
    obtain ⟨t0, ht0mem, ht0⟩ := hqmem
    obtain ⟨m, hev, hpr⟩ := meritEntry_eq_some reg o ws t0 (q, t) ht0
    have ht0t : t0 = t := by
      have h2 := congrArg Prod.snd hpr
      simpa using h2.symm
    subst ht0t
    have hq : q = t0.priority * m := by
      have h2 := congrArg Prod.fst hpr
      simpa using h2
    refine ⟨ht0mem, ⟨m, hev, ?_⟩, ?_⟩
    · intro u mu humem huev
      have hmem2 : (u.priority * mu, u) ∈ ts.filterMap (meritEntry reg o ws) :=
        List.mem_filterMap.mpr ⟨u, humem, by simp [meritEntry, huev]⟩
      have h3 := hqmax _ hmem2
      rw [hq] at h3
      simpa using h3
    · intro u humem hfalsy
      obtain ⟨r, hr⟩ := hok u humem
      obtain ⟨kw, hkwmem, f, mv, hregf, hfu, htr⟩ := hfalsy
      have hkwmem2 : (kw.1, kw.2) ∈ ws := by rw [Prod.mk.eta]; exact hkwmem
      have hveto := evalTerms_falsy_veto reg o u ws false 0 kw.1 kw.2 f mv
        hkwmem2 hregf hfu htr r hr
      intro hteq
      rw [← hteq, hev] at hr
      have hrr : r = (false, m) := (Except.ok.inj hr).symm
      rw [hrr] at hveto
      exact absurd hveto (by simp)

unseal Rat.add Rat.mul in
theorem c1_get_target_max_unvetoed_witness :
    getTarget meritRegistry defaultWeights [tgtA] obsyAll = .ok (some tgtA) ∧
    tgtA ∈ [tgtA] :=
  ⟨by decide,
   (c1_get_target_max_unvetoed meritRegistry defaultWeights [tgtA] obsyAll tgtA (by decide)).1⟩

end Panoptes
